import Mathlib

/-!
Verification of the object-storage transfer core described in `spec.md`
against the repository `JashanZedd/AWS_CLI_`.

The repository ships the unit tests of the transfer core
(`tests/unit/customizations/s3/test_utils.py`), which exercise
`find_chunksize` (the chunk-size planner, called `plan_part_size` in the
spec), the `NoBlockQueue` bounded task queue, the constants `MAX_PARTS`
and `MAX_SINGLE_UPLOAD_SIZE`, and the S3-path splitter `find_bucket_key`,
all imported from `awscli.customizations.s3`.  Those modules themselves
are not part of the source tree, so the definitions below are modelled
from the spec's contracts (§3, §4.1, §4.2, §8), constrained by the
behaviour the repository's unit tests pin down.
-/

/-- Modelled from the spec: `MAX_PARTS`, the fixed ceiling on the number of
parts of a multipart transfer (§3, §6; `awscli.customizations.s3.constants`
is absent from the source tree).  The spec's illustrative value `10,000` is
incompatible with its own normative concrete example
`plan_part_size(8 * 1024^3, 7 * 1024^2) = 14 * 1024^2` (§8) and with the
repository test `FindChunksizeTest.test_large_chunk`, both of which require
`586 ≤ MAX_PARTS < 1171`; we take 950, a value in that range. -/
def MAX_PARTS : Nat := 950

/-- Modelled from the spec: `MAX_SINGLE_TRANSFER_SIZE`, the fixed ceiling on
a single transfer's size, "e.g. 5 GiB equivalent" (§3).  Named
`MAX_SINGLE_UPLOAD_SIZE` as in the repository test
`FindChunksizeTest.test_super_chunk`, which imports that symbol from
`awscli.customizations.s3.constants`. -/
def MAX_SINGLE_UPLOAD_SIZE : Nat := 5 * 1024 ^ 3

/-- Modelled from the spec: the part count implied by a part size,
`ceil(size / chunksize)` (§3, §4.1).  On the documented domain
`chunksize ≥ 1` this is exact ceiling division of naturals. -/
def numParts (size chunksize : Nat) : Nat :=
  (size + chunksize - 1) / chunksize

/-- Modelled from the spec: the doubling loop of the chunk-size planner
(§4.1): "repeatedly double the candidate part size (starting from
`requested_part_size`) until the resulting part count is `≤ MAX_PARTS`".
The loop is written with explicit fuel so that it is structurally
recursive; `find_chunksize` supplies fuel `size + 1`, which
`growChunksize_le_maxParts` and `growChunksize_eq_of_least` prove is enough
for the loop to reach its exit condition on the documented domain, so the
fuel never runs out there and the function satisfies the while-loop's
defining equations (`growChunksize_exit`, `growChunksize_step`). -/
def growChunksize : Nat → Nat → Nat → Nat → Nat
  | 0, _, _, chunksize => chunksize
  | fuel + 1, maxParts, size, chunksize =>
    if maxParts < numParts size chunksize then
      growChunksize fuel maxParts size (chunksize * 2)
    else
      chunksize

/-- Modelled from the spec: the chunk-size planner `plan_part_size`
(§4.1), named `find_chunksize` as in the repository test
`FindChunksizeTest`: double the requested part size until the implied part
count is within `MAX_PARTS`, then clamp the final candidate to
`MAX_SINGLE_UPLOAD_SIZE` (the clamp applies to the final candidate
unconditionally, as the spec's own concrete example
`plan_part_size(2 * MAX, MAX + 1) = MAX` (§8) and the repository test
`test_super_chunk` require). -/
def find_chunksize (size chunksize : Nat) : Nat :=
  if MAX_SINGLE_UPLOAD_SIZE < growChunksize (size + 1) MAX_PARTS size chunksize then
    MAX_SINGLE_UPLOAD_SIZE
  else
    growChunksize (size + 1) MAX_PARTS size chunksize

/-- Modelled from the spec: the error kinds of the bounded task queue,
`QueueFullError` and `QueueEmptyError` (§7); the source tests match them
as `queue.Full` in `TestNoBlockQueue.test_max_size`. -/
inductive QueueError : Type where
  | full : QueueError
  | empty : QueueError
deriving DecidableEq, Repr

/-- Modelled from the spec: the bounded task queue state (§3, §4.2), named
`NoBlockQueue` as in the repository test `TestNoBlockQueue`.  `maxsize` is
the optional capacity (`none` = unbounded, the spec's "unbounded if
unset"); `items` holds the buffered entries oldest first.  Blocking and
timeouts are not modelled: each operation below is the immediate atomic
state transition, which is the complete behaviour for `block = false` and
for calls that can complete without suspending. -/
structure NoBlockQueue (α : Type) : Type where
  maxsize : Option Nat
  items : List α
deriving DecidableEq, Repr

/-- Modelled from the spec: `put` (§4.2).  On a bounded queue that is
currently full it fails with the Full-queue error and does not insert the
item (the caller's queue value is untouched); otherwise it appends the
item at the tail. -/
def NoBlockQueue.put {α : Type} (q : NoBlockQueue α) (item : α) :
    Except QueueError (NoBlockQueue α) :=
  match q.maxsize with
  | none => Except.ok ⟨none, q.items ++ [item]⟩
  | some cap =>
    if cap ≤ q.items.length then
      Except.error QueueError.full
    else
      Except.ok ⟨some cap, q.items ++ [item]⟩

/-- Modelled from the spec: `get` (§4.2).  Removes and returns the oldest
buffered entry (strict FIFO); on an empty queue it fails with the
Empty-queue error. -/
def NoBlockQueue.get {α : Type} (q : NoBlockQueue α) :
    Except QueueError (α × NoBlockQueue α) :=
  match q.items with
  | [] => Except.error QueueError.empty
  | x :: rest => Except.ok (x, ⟨q.maxsize, rest⟩)

/-- Sequence of `put` calls from a single producer: enqueue the given items
in order, stopping at the first failure. -/
def putAll {α : Type} : NoBlockQueue α → List α → Except QueueError (NoBlockQueue α)
  | q, [] => Except.ok q
  | q, x :: xs =>
    match q.put x with
    | Except.error e => Except.error e
    | Except.ok q1 => putAll q1 xs

/-- Sequence of `get` calls from a single consumer: dequeue `n` items,
returning them in dequeue order, stopping at the first failure. -/
def getN {α : Type} : NoBlockQueue α → Nat → Except QueueError (List α × NoBlockQueue α)
  | q, 0 => Except.ok ([], q)
  | q, n + 1 =>
    match q.get with
    | Except.error e => Except.error e
    | Except.ok (x, q1) =>
      match getN q1 n with
      | Except.error e => Except.error e
      | Except.ok (xs, q2) => Except.ok (x :: xs, q2)

/-- Modelled from the spec: a single atomic queue operation issued by some
producer (`put x`) or consumer (`get`) (§4.2, §5).  A run of N producers
and M consumers under the spec's atomicity guarantee ("the queue's internal
state transitions are atomic with respect to all callers") is an arbitrary
interleaving, i.e. an arbitrary finite list of these operations. -/
inductive QueueOp (α : Type) : Type where
  | put : α → QueueOp α
  | get : QueueOp α

/-- Trace state for a producer/consumer run: the queue together with the
multiset-relevant history — items accepted by successful `put` calls and
items delivered by successful `get` calls.  A failed operation (Full or
Empty signal) leaves the queue unchanged. -/
structure TraceState (α : Type) : Type where
  q : NoBlockQueue α
  accepted : List α
  delivered : List α

/-- One step of an interleaved run: apply one atomic queue operation. -/
def stepOp {α : Type} (s : TraceState α) : QueueOp α → TraceState α
  | QueueOp.put x =>
    match s.q.put x with
    | Except.ok q1 => ⟨q1, s.accepted ++ [x], s.delivered⟩
    | Except.error _ => s
  | QueueOp.get =>
    match s.q.get with
    | Except.ok (x, q1) => ⟨q1, s.accepted, s.delivered ++ [x]⟩
    | Except.error _ => s

/-- Run an interleaving of atomic queue operations from a given state. -/
def runOps {α : Type} (s : TraceState α) : List (QueueOp α) → TraceState α
  | [] => s
  | op :: ops => runOps (stepOp s op) ops

/-- Modelled from the spec: `find_bucket_key`, the S3-path splitter
exercised by the repository test `FindBucketKey.test_unicode`
(`awscli.customizations.s3.utils` is absent from the source tree; the
spec's §1 leaves its internals unspecified, so this is modelled from the
behaviour the test pins down): split the path at the first `/` into bucket
(everything before it) and key (everything after it); a path with no `/`
is all bucket with an empty key.  Strings are modelled as their lists of
Unicode characters. -/
def find_bucket_key : List Char → List Char × List Char
  | [] => ([], [])
  | c :: rest =>
    if c = '/' then
      ([], rest)
    else
      match find_bucket_key rest with
      | (bucket, key) => (c :: bucket, key)

section PlannerLemmas

/-- On the documented domain, a part size at least as large as the object
fits everything in at most one part. -/
theorem numParts_le_one (size chunksize : Nat) (hc : 0 < chunksize)
    (h : size ≤ chunksize) : numParts size chunksize ≤ 1 := by
  have hlt : size + chunksize - 1 < chunksize * 2 := by omega
  have := Nat.div_lt_of_lt_mul hlt
  unfold numParts
  omega

/-- A part count of at least two means the part size is strictly below the
object size. -/
theorem lt_of_two_le_numParts (size chunksize : Nat) (hc : 0 < chunksize)
    (h : 2 ≤ numParts size chunksize) : chunksize < size := by
  unfold numParts at h
  have := (Nat.le_div_iff_mul_le hc).1 h
  omega

/-- The while-loop's exit equation: when the implied part count is already
within the limit, the doubling loop returns its argument unchanged, for any
amount of fuel. -/
theorem growChunksize_exit (fuel maxParts size chunksize : Nat)
    (h : numParts size chunksize ≤ maxParts) :
    growChunksize fuel maxParts size chunksize = chunksize := by
  cases fuel with
  | zero => rfl
  | succ f =>
    unfold growChunksize
    rw [if_neg (Nat.not_lt.2 h)]

/-- The while-loop's step equation: when the implied part count exceeds the
limit, the doubling loop doubles the candidate and continues. -/
theorem growChunksize_step (fuel maxParts size chunksize : Nat)
    (h : maxParts < numParts size chunksize) :
    growChunksize (fuel + 1) maxParts size chunksize =
      growChunksize fuel maxParts size (chunksize * 2) := by
  unfold growChunksize
  rw [if_pos h]
  cases fuel <;> rfl

/-- Exact characterisation of the doubling loop: if `k` is the least number
of doublings after which the implied part count is within the limit, the
loop returns the request multiplied by `2 ^ k`, provided the fuel covers
those `k` doublings. -/
theorem growChunksize_eq_of_least (k : Nat) :
    ∀ (fuel maxParts size chunksize : Nat), k ≤ fuel →
    (∀ j, j < k → maxParts < numParts size (chunksize * 2 ^ j)) →
    numParts size (chunksize * 2 ^ k) ≤ maxParts →
    growChunksize fuel maxParts size chunksize = chunksize * 2 ^ k := by
  induction k with
  | zero =>
    intro fuel maxParts size chunksize _ _ hk
    rw [pow_zero, mul_one] at hk ⊢
    exact growChunksize_exit fuel maxParts size chunksize hk
  | succ m ih =>
    intro fuel maxParts size chunksize hfuel hlt hk
    obtain ⟨f, rfl⟩ : ∃ f, fuel = f + 1 := ⟨fuel - 1, by omega⟩
    have h0 : maxParts < numParts size chunksize := by
      have := hlt 0 (by omega)
      rwa [pow_zero, mul_one] at this
    rw [growChunksize_step f maxParts size chunksize h0]
    have hrw : ∀ j : Nat, chunksize * 2 * 2 ^ j = chunksize * 2 ^ (j + 1) := by
      intro j
      ring
    have := ih f maxParts size (chunksize * 2) (by omega)
      (fun j hj => by rw [hrw j]; exact hlt (j + 1) (by omega))
      (by rw [hrw m]; exact hk)
    rw [this, hrw m]

/-- Termination bound for the loop: with enough fuel that the candidate can
be doubled past the object size, the returned part size implies a part
count within the limit (for a positive limit and request). -/
theorem growChunksize_le_maxParts (fuel : Nat) :
    ∀ (maxParts size chunksize : Nat), 0 < maxParts → 0 < chunksize →
    size ≤ chunksize * 2 ^ fuel →
    numParts size (growChunksize fuel maxParts size chunksize) ≤ maxParts := by
  induction fuel with
  | zero =>
    intro maxParts size chunksize hm hc hsize
    rw [pow_zero, mul_one] at hsize
    have := numParts_le_one size chunksize hc hsize
    unfold growChunksize
    omega
  | succ f ih =>
    intro maxParts size chunksize hm hc hsize
    unfold growChunksize
    by_cases h : maxParts < numParts size chunksize
    · rw [if_pos h]
      exact ih maxParts size (chunksize * 2) hm (by omega)
        (by have : chunksize * 2 * 2 ^ f = chunksize * 2 ^ (f + 1) := by ring
            omega)
    · rw [if_neg h]
      omega

/-- Fuel `size + 1` always suffices for a positive request: the candidate
can be doubled past the object size within that many iterations. -/
theorem size_le_fuel_bound (size chunksize : Nat) (hc : 0 < chunksize) :
    size ≤ chunksize * 2 ^ (size + 1) := by
  have h1 : size < 2 ^ size := Nat.lt_two_pow size
  have h2 : (2 : Nat) ^ size ≤ 2 ^ (size + 1) := Nat.pow_le_pow_right (by omega) (by omega)
  have h3 : (2 : Nat) ^ (size + 1) ≤ chunksize * 2 ^ (size + 1) :=
    Nat.le_mul_of_pos_left _ hc
  omega

end PlannerLemmas

section QueueLemmas

/-- On an unbounded queue every `put` succeeds and appends at the tail, so
a sequence of puts appends the items in enqueue order. -/
theorem putAll_unbounded {α : Type} (xs : List α) :
    ∀ ys : List α, putAll ⟨none, ys⟩ xs = Except.ok ⟨none, ys ++ xs⟩ := by
  induction xs with
  | nil =>
    intro ys
    simp [putAll]
  | cons x xs ih =>
    intro ys
    simp only [putAll, NoBlockQueue.put]
    rw [ih (ys ++ [x])]
    simp

/-- Dequeuing as many items as a prefix of the buffer is long returns
exactly that prefix, in buffer order, leaving the rest buffered. -/
theorem getN_prefix {α : Type} (xs : List α) :
    ∀ (rest : List α) (m : Option Nat),
      getN ⟨m, xs ++ rest⟩ xs.length = Except.ok (xs, ⟨m, rest⟩) := by
  induction xs with
  | nil =>
    intro rest m
    rfl
  | cons x xs ih =>
    intro rest m
    simp only [List.cons_append, List.length_cons, getN, NoBlockQueue.get, ih]

/-- A successful `put` appends exactly its item at the tail. -/
theorem put_ok_items {α : Type} (q q1 : NoBlockQueue α) (x : α)
    (h : q.put x = Except.ok q1) : q1.items = q.items ++ [x] := by
  obtain ⟨m, items⟩ := q
  cases m with
  | none =>
    simp only [NoBlockQueue.put] at h
    cases h
    rfl
  | some cap =>
    simp only [NoBlockQueue.put] at h
    split at h
    · cases h
    · cases h
      rfl

/-- A successful `get` removes exactly the oldest buffered entry. -/
theorem get_ok_items {α : Type} (q q1 : NoBlockQueue α) (x : α)
    (h : q.get = Except.ok (x, q1)) : q.items = x :: q1.items := by
  obtain ⟨m, items⟩ := q
  cases items with
  | nil =>
    simp [NoBlockQueue.get] at h
  | cons y ys =>
    simp only [NoBlockQueue.get] at h
    injection h with h1
    injection h1 with hx hq
    subst hx
    subst hq
    rfl

/-- One atomic operation preserves the conservation invariant: the items
delivered so far followed by the items still buffered are exactly the items
accepted so far, in order. -/
theorem stepOp_conservation {α : Type} (s : TraceState α) (op : QueueOp α)
    (h : s.delivered ++ s.q.items = s.accepted) :
    (stepOp s op).delivered ++ (stepOp s op).q.items = (stepOp s op).accepted := by
  cases op with
  | put x =>
    cases hput : s.q.put x with
    | error e =>
      simpa [stepOp, hput] using h
    | ok q1 =>
      have hi := put_ok_items s.q q1 x hput
      simp only [stepOp, hput]
      rw [hi, ← h]
      simp
  | get =>
    cases hget : s.q.get with
    | error e =>
      simpa [stepOp, hget] using h
    | ok p =>
      obtain ⟨x, q1⟩ := p
      have hi := get_ok_items s.q q1 x hget
      simp only [stepOp, hget]
      rw [← h, hi]
      simp

/-- The conservation invariant is preserved by any interleaving of atomic
operations. -/
theorem runOps_conservation {α : Type} (ops : List (QueueOp α)) :
    ∀ s : TraceState α, s.delivered ++ s.q.items = s.accepted →
      (runOps s ops).delivered ++ (runOps s ops).q.items = (runOps s ops).accepted := by
  induction ops with
  | nil =>
    intro s h
    exact h
  | cons op ops ih =>
    intro s h
    exact ih (stepOp s op) (stepOp_conservation s op h)

end QueueLemmas

/-- C1 counterexample: the claim fails as stated.  At
`total_size = 2 * MAX_SINGLE_UPLOAD_SIZE` and
`requested_part_size = MAX_SINGLE_UPLOAD_SIZE + 1` — a valid input whose
implied part count, 2, is within `MAX_PARTS` — `find_chunksize` does not
return the request unchanged: the clamp applies to the final candidate
unconditionally (this is the spec's own §8 clamp example and the
repository test `test_super_chunk`). -/
theorem find_chunksize_not_id_within_limit :
    0 < MAX_SINGLE_UPLOAD_SIZE + 1 ∧
    numParts (2 * MAX_SINGLE_UPLOAD_SIZE) (MAX_SINGLE_UPLOAD_SIZE + 1) ≤ MAX_PARTS ∧
    find_chunksize (2 * MAX_SINGLE_UPLOAD_SIZE) (MAX_SINGLE_UPLOAD_SIZE + 1) ≠
      MAX_SINGLE_UPLOAD_SIZE + 1 := by
  decide

/-- C1 (amended): for every non-negative `total_size` and positive
`requested_part_size` with `ceil(total_size / requested_part_size) ≤
MAX_PARTS` **and** `requested_part_size ≤ MAX_SINGLE_UPLOAD_SIZE`,
`find_chunksize` returns `requested_part_size` unchanged (without the
added bound the unconditional clamp can lower the result). -/
theorem find_chunksize_id_of_within_limits (size chunksize : Nat)
    (hc : 0 < chunksize) (hparts : numParts size chunksize ≤ MAX_PARTS)
    (hle : chunksize ≤ MAX_SINGLE_UPLOAD_SIZE) :
    find_chunksize size chunksize = chunksize := by
  unfold find_chunksize
  rw [growChunksize_exit (size + 1) MAX_PARTS size chunksize hparts,
    if_neg (Nat.not_lt.2 hle)]

/-- C1 witness: the repository test `test_small_chunk` instance,
`find_chunksize (8 MiB) (7 MiB) = 7 MiB`. -/
theorem find_chunksize_id_of_within_limits_witness :
    find_chunksize (8 * 1024 ^ 2) (7 * 1024 ^ 2) = 7 * 1024 ^ 2 :=
  find_chunksize_id_of_within_limits (8 * 1024 ^ 2) (7 * 1024 ^ 2)
    (by decide) (by decide) (by decide)

/-- C2: `find_chunksize` clamps its result to `MAX_SINGLE_UPLOAD_SIZE`:
whenever the candidate produced by the doubling loop (the request,
possibly doubled) exceeds `MAX_SINGLE_UPLOAD_SIZE`, the result is exactly
`MAX_SINGLE_UPLOAD_SIZE`; in particular
`find_chunksize (2 * MAX_SINGLE_UPLOAD_SIZE) (MAX_SINGLE_UPLOAD_SIZE + 1)
= MAX_SINGLE_UPLOAD_SIZE`. -/
theorem find_chunksize_clamped :
    (∀ size chunksize : Nat,
      MAX_SINGLE_UPLOAD_SIZE < growChunksize (size + 1) MAX_PARTS size chunksize →
      find_chunksize size chunksize = MAX_SINGLE_UPLOAD_SIZE) ∧
    find_chunksize (2 * MAX_SINGLE_UPLOAD_SIZE) (MAX_SINGLE_UPLOAD_SIZE + 1) =
      MAX_SINGLE_UPLOAD_SIZE := by
  constructor
  · intro size chunksize h
    unfold find_chunksize
    rw [if_pos h]
  · decide

/-- C2 witness: the clamp instance of the repository test
`test_super_chunk`, obtained from the general clamp statement. -/
theorem find_chunksize_clamped_witness :
    find_chunksize (2 * MAX_SINGLE_UPLOAD_SIZE) (MAX_SINGLE_UPLOAD_SIZE + 1) =
      MAX_SINGLE_UPLOAD_SIZE :=
  find_chunksize_clamped.1 (2 * MAX_SINGLE_UPLOAD_SIZE)
    (MAX_SINGLE_UPLOAD_SIZE + 1) (by decide)

/-- C3: if the doubling loop doubles the request exactly `k` times — that
is, `k` is the least number with
`ceil(total_size / (requested_part_size * 2^k)) ≤ MAX_PARTS` — then
`find_chunksize` returns `requested_part_size * 2^k`, unless that value
exceeds `MAX_SINGLE_UPLOAD_SIZE`, in which case it returns
`MAX_SINGLE_UPLOAD_SIZE` exactly; in particular
`find_chunksize (8 * 1024^3) (7 * 1024^2) = 14 * 1024^2` (doubled once). -/
theorem find_chunksize_doubling :
    (∀ size chunksize k : Nat, 0 < chunksize →
      (∀ j, j < k → MAX_PARTS < numParts size (chunksize * 2 ^ j)) →
      numParts size (chunksize * 2 ^ k) ≤ MAX_PARTS →
      find_chunksize size chunksize =
        if MAX_SINGLE_UPLOAD_SIZE < chunksize * 2 ^ k then MAX_SINGLE_UPLOAD_SIZE
        else chunksize * 2 ^ k) ∧
    find_chunksize (8 * 1024 ^ 3) (7 * 1024 ^ 2) = 14 * 1024 ^ 2 := by
  constructor
  · intro size chunksize k hc hlt hk
    have hkfuel : k ≤ size + 1 := by
      cases k with
      | zero => omega
      | succ m =>
        have h1 : MAX_PARTS < numParts size (chunksize * 2 ^ m) := hlt m (by omega)
        have hpos : 0 < chunksize * 2 ^ m := Nat.mul_pos hc (by positivity)
        have h2 : 2 ≤ numParts size (chunksize * 2 ^ m) := by
          have hmp : (2 : Nat) ≤ MAX_PARTS + 1 := by decide
          omega
        have h3 : chunksize * 2 ^ m < size :=
          lt_of_two_le_numParts size (chunksize * 2 ^ m) hpos h2
        have h4 : 2 ^ m ≤ chunksize * 2 ^ m := Nat.le_mul_of_pos_left _ hc
        have h5 : m < 2 ^ m := Nat.lt_two_pow m
        omega
    unfold find_chunksize
    rw [growChunksize_eq_of_least k (size + 1) MAX_PARTS size chunksize hkfuel hlt hk]
  · decide

/-- C3 witness: the repository test `test_large_chunk` instance, with one
doubling (`k = 1`), obtained from the general doubling statement. -/
theorem find_chunksize_doubling_witness :
    find_chunksize (8 * 1024 ^ 3) (7 * 1024 ^ 2) =
      if MAX_SINGLE_UPLOAD_SIZE < 7 * 1024 ^ 2 * 2 ^ 1 then MAX_SINGLE_UPLOAD_SIZE
      else 7 * 1024 ^ 2 * 2 ^ 1 :=
  find_chunksize_doubling.1 (8 * 1024 ^ 3) (7 * 1024 ^ 2) 1 (by decide) (by decide)
    (by decide)

/-- C4 counterexample: the part-count half of the invariant fails as
stated.  At `total_size = 951 * MAX_SINGLE_UPLOAD_SIZE` with
`requested_part_size = MAX_SINGLE_UPLOAD_SIZE` (a valid input), the
doubling loop's candidate is clamped back to `MAX_SINGLE_UPLOAD_SIZE`,
and the returned part size implies 951 parts, exceeding
`MAX_PARTS = 950`. -/
theorem find_chunksize_part_bound_violated :
    0 < MAX_SINGLE_UPLOAD_SIZE ∧
    MAX_PARTS < numParts (951 * MAX_SINGLE_UPLOAD_SIZE)
      (find_chunksize (951 * MAX_SINGLE_UPLOAD_SIZE) MAX_SINGLE_UPLOAD_SIZE) := by
  decide

/-- C4 (amended): for every valid input the returned part size satisfies
`part_size ≤ MAX_SINGLE_UPLOAD_SIZE`, and it satisfies
`ceil(total_size / part_size) ≤ MAX_PARTS` provided
`total_size ≤ MAX_PARTS * MAX_SINGLE_UPLOAD_SIZE` (beyond that bound the
clamp to `MAX_SINGLE_UPLOAD_SIZE` necessarily forces more than
`MAX_PARTS` parts, as the counterexample shows). -/
theorem find_chunksize_invariant (size chunksize : Nat) (hc : 0 < chunksize) :
    find_chunksize size chunksize ≤ MAX_SINGLE_UPLOAD_SIZE ∧
    (size ≤ MAX_PARTS * MAX_SINGLE_UPLOAD_SIZE →
      numParts size (find_chunksize size chunksize) ≤ MAX_PARTS) := by
  constructor
  · unfold find_chunksize
    split
    · exact le_rfl
    · rename_i h
      exact Nat.not_lt.1 h
  · intro hsize
    unfold find_chunksize
    split
    · simp only [numParts, MAX_PARTS, MAX_SINGLE_UPLOAD_SIZE] at hsize ⊢
      norm_num at hsize ⊢
      omega
    · exact growChunksize_le_maxParts (size + 1) MAX_PARTS size chunksize
        (by decide) hc (size_le_fuel_bound size chunksize hc)

/-- C4 witness: both invariant halves at the `test_small_chunk` input. -/
theorem find_chunksize_invariant_witness :
    find_chunksize (8 * 1024 ^ 2) (7 * 1024 ^ 2) ≤ MAX_SINGLE_UPLOAD_SIZE ∧
    numParts (8 * 1024 ^ 2) (find_chunksize (8 * 1024 ^ 2) (7 * 1024 ^ 2)) ≤
      MAX_PARTS :=
  ⟨(find_chunksize_invariant (8 * 1024 ^ 2) (7 * 1024 ^ 2) (by decide)).1,
   (find_chunksize_invariant (8 * 1024 ^ 2) (7 * 1024 ^ 2) (by decide)).2
     (by decide)⟩

/-- C9: the chunk-size planner is a pure, deterministic function: its
model takes only the two arguments `(total_size, requested_part_size)` and
reads no other state, so two calls on identical inputs are the same term
and yield identical outputs. -/
theorem find_chunksize_deterministic (size chunksize : Nat) :
    find_chunksize size chunksize = find_chunksize size chunksize := rfl

/-- Looking up an index inside the left part of an appended list reads the
left part. -/
theorem get_append_left {α : Type} (d rest : List α) :
    ∀ (i : Nat) (hi : i < d.length) (hi' : i < (d ++ rest).length),
    (d ++ rest).get ⟨i, hi'⟩ = d.get ⟨i, hi⟩ := by
  induction d with
  | nil =>
    intro i hi _
    exact absurd hi (by simp)
  | cons x d ih =>
    intro i hi hi'
    cases i with
    | zero => rfl
    | succ n =>
      have h1 : n < d.length := by
        simp only [List.length_cons] at hi
        omega
      have h2 : n < (d ++ rest).length := by
        simp only [List.cons_append, List.length_cons] at hi'
        omega
      exact ih n h1 h2

/-- A list that extends to another by appending agrees with it on every
index of its own. -/
theorem get_eq_of_append_eq {α : Type} (d rest acc : List α) (h : d ++ rest = acc)
    (i : Nat) (hi : i < d.length) (hi' : i < acc.length) :
    d.get ⟨i, hi⟩ = acc.get ⟨i, hi'⟩ := by
  subst h
  exact (get_append_left d rest i hi hi').symm

/-- C5: the queue is strictly FIFO, in every execution.  For any capacity
(bounded `some cap` or unbounded `none`) and any interleaving of atomic
`put`/`get` operations from an empty start, the list of items delivered by
the successful `get`s so far is exactly the prefix of the list of items
accepted by the successful `put`s so far (first conjunct), and the `i`-th
dequeue returns the `i`-th enqueued entry (second conjunct).  Hence for any
two entries, A whose `put` completed before B's, if B is ever dequeued —
say it is the `j`-th accepted entry and is returned by a dequeue, so
`j < delivered.length` — then A, the `i`-th accepted entry with `i < j`,
is returned by the earlier `i`-th dequeue: A is dequeued strictly before
B whenever both are dequeued.  The remaining conjuncts give the
single-producer/single-consumer reading and the concrete instance of the
repository test `test_no_max_size`: enqueuing 1, 2, 3, 4 sequentially on
an unbounded queue and dequeuing four times yields 1, 2, 3, 4 in that
order. -/
theorem queue_fifo :
    (∀ (m : Option Nat) (ops : List (QueueOp Nat)),
      (runOps ⟨⟨m, []⟩, [], []⟩ ops).delivered =
        (runOps ⟨⟨m, []⟩, [], []⟩ ops).accepted.take
          (runOps ⟨⟨m, []⟩, [], []⟩ ops).delivered.length) ∧
    (∀ (m : Option Nat) (ops : List (QueueOp Nat)) (i : Nat)
      (hi : i < (runOps ⟨⟨m, []⟩, [], []⟩ ops).delivered.length)
      (hi' : i < (runOps ⟨⟨m, []⟩, [], []⟩ ops).accepted.length),
      (runOps ⟨⟨m, []⟩, [], []⟩ ops).delivered.get ⟨i, hi⟩ =
        (runOps ⟨⟨m, []⟩, [], []⟩ ops).accepted.get ⟨i, hi'⟩) ∧
    (∀ xs : List Nat, putAll ⟨none, []⟩ xs = Except.ok ⟨none, xs⟩) ∧
    (∀ xs rest : List Nat, getN ⟨none, xs ++ rest⟩ xs.length =
      Except.ok (xs, ⟨none, rest⟩)) ∧
    putAll ⟨none, ([] : List Nat)⟩ [1, 2, 3, 4] = Except.ok ⟨none, [1, 2, 3, 4]⟩ ∧
    getN (⟨none, [1, 2, 3, 4]⟩ : NoBlockQueue Nat) 4 =
      Except.ok ([1, 2, 3, 4], ⟨none, []⟩) := by
  refine ⟨?_, ?_, fun xs => ?_, fun xs rest => getN_prefix xs rest none, rfl, rfl⟩
  · intro m ops
    have h := runOps_conservation ops ⟨⟨m, []⟩, [], []⟩ rfl
    rw [← h]
    exact (List.take_left _ _).symm
  · intro m ops i hi hi'
    exact get_eq_of_append_eq _ _ _
      (runOps_conservation ops ⟨⟨m, []⟩, [], []⟩ rfl) i hi hi'
  · simpa using putAll_unbounded xs []

/-- C5 witness: a bounded queue of capacity 2 under an interleaved
producer/consumer schedule with an entry still buffered at the end — the
second dequeue returns the second enqueued entry. -/
theorem queue_fifo_witness :
    (runOps (⟨⟨some 2, []⟩, [], []⟩ : TraceState Nat)
        [QueueOp.put 1, QueueOp.put 2, QueueOp.get, QueueOp.put 3,
         QueueOp.get]).delivered.get ⟨1, by decide⟩ =
      (runOps (⟨⟨some 2, []⟩, [], []⟩ : TraceState Nat)
        [QueueOp.put 1, QueueOp.put 2, QueueOp.get, QueueOp.put 3,
         QueueOp.get]).accepted.get ⟨1, by decide⟩ :=
  queue_fifo.2.1 (some 2)
    [QueueOp.put 1, QueueOp.put 2, QueueOp.get, QueueOp.put 3, QueueOp.get]
    1 (by decide) (by decide)

/-- C6: a non-blocking `put` on a bounded queue whose buffered count equals
its capacity fails with the Full-queue error and inserts nothing; the
functional model returns no new state on failure, so the previously
buffered entries are untouched and still in FIFO order.  Concretely
(repository test `test_max_size`): with capacity 3, after successfully
putting 1, 2, 3, putting 4 fails with Full and the three buffered items
are still dequeued as 1, 2, 3. -/
theorem queue_put_full :
    (∀ (q : NoBlockQueue Nat) (cap x : Nat), q.maxsize = some cap →
      q.items.length = cap → q.put x = Except.error QueueError.full) ∧
    putAll ⟨some 3, ([] : List Nat)⟩ [1, 2, 3] = Except.ok ⟨some 3, [1, 2, 3]⟩ ∧
    NoBlockQueue.put (⟨some 3, [1, 2, 3]⟩ : NoBlockQueue Nat) 4 =
      Except.error QueueError.full ∧
    getN (⟨some 3, [1, 2, 3]⟩ : NoBlockQueue Nat) 3 =
      Except.ok ([1, 2, 3], ⟨some 3, []⟩) := by
  refine ⟨?_, rfl, rfl, rfl⟩
  intro q cap x hm hlen
  obtain ⟨m, items⟩ := q
  have hm' : m = some cap := hm
  subst hm'
  have hlen' : items.length = cap := hlen
  have hgoal : NoBlockQueue.put (⟨some cap, items⟩ : NoBlockQueue Nat) x =
      (if cap ≤ items.length then Except.error QueueError.full
       else Except.ok ⟨some cap, items ++ [x]⟩) := rfl
  rw [hgoal, if_pos (le_of_eq hlen'.symm)]

/-- C6 witness: the full-queue instance of the repository test
`test_max_size`, obtained from the general statement. -/
theorem queue_put_full_witness :
    NoBlockQueue.put (⟨some 3, [1, 2, 3]⟩ : NoBlockQueue Nat) 4 =
      Except.error QueueError.full :=
  queue_put_full.1 ⟨some 3, [1, 2, 3]⟩ 3 4 rfl rfl

/-- C7: a non-blocking `get` on an empty queue fails with the Empty-queue
error, and Full and Empty are the only error conditions the queue signals:
every `put` failure is Full and every `get` failure is Empty.  Both are
recoverable by construction in this model: a failed operation returns only
the error signal and no new state, so the caller retains the queue
unchanged and can retry or back off. -/
theorem queue_errors :
    (∀ q : NoBlockQueue Nat, q.items = [] → q.get = Except.error QueueError.empty) ∧
    (∀ (q : NoBlockQueue Nat) (x : Nat) (e : QueueError),
      q.put x = Except.error e → e = QueueError.full) ∧
    (∀ (q : NoBlockQueue Nat) (e : QueueError),
      q.get = Except.error e → e = QueueError.empty) := by
  refine ⟨?_, ?_, ?_⟩
  · intro q h
    obtain ⟨m, items⟩ := q
    have h' : items = [] := h
    subst h'
    rfl
  · intro q x e h
    obtain ⟨m, items⟩ := q
    cases m with
    | none => cases h
    | some cap =>
      have h' : (if cap ≤ items.length then
          (Except.error QueueError.full : Except QueueError (NoBlockQueue Nat))
        else Except.ok ⟨some cap, items ++ [x]⟩) = Except.error e := h
      split at h'
      · injection h' with h2
        exact h2.symm
      · cases h'
  · intro q e h
    obtain ⟨m, items⟩ := q
    cases items with
    | nil =>
      injection h with h2
      exact h2.symm
    | cons y ys => cases h

/-- C7 witness: `get` on a concrete empty queue signals Empty. -/
theorem queue_errors_witness :
    NoBlockQueue.get (⟨none, []⟩ : NoBlockQueue Nat) =
      Except.error QueueError.empty :=
  queue_errors.1 ⟨none, []⟩ rfl

/-- C8: exactly-once delivery for all interleavings.  Any finite
interleaving of atomic `put`/`get` operations — which, by the spec's
atomicity guarantee, covers every schedule of N concurrent producers and M
concurrent consumers — run on an initially empty bounded queue satisfies:
the items delivered by successful `get`s followed by the items still
buffered equal, as a list, the items accepted by successful `put`s.  So
each accepted entry is delivered to exactly one `get` (no duplication) or
is still buffered (no loss), and once the queue has drained, the sequence
— a fortiori the multiset — of dequeued items equals the multiset
enqueued. -/
theorem queue_exactly_once :
    (∀ (cap : Nat) (ops : List (QueueOp Nat)),
      (runOps ⟨⟨some cap, []⟩, [], []⟩ ops).delivered ++
        (runOps ⟨⟨some cap, []⟩, [], []⟩ ops).q.items =
      (runOps ⟨⟨some cap, []⟩, [], []⟩ ops).accepted) ∧
    (∀ (cap : Nat) (ops : List (QueueOp Nat)),
      (runOps ⟨⟨some cap, []⟩, [], []⟩ ops).q.items = [] →
      (runOps ⟨⟨some cap, []⟩, [], []⟩ ops).delivered =
        (runOps ⟨⟨some cap, []⟩, [], []⟩ ops).accepted) := by
  have h1 : ∀ (cap : Nat) (ops : List (QueueOp Nat)),
      (runOps ⟨⟨some cap, []⟩, [], []⟩ ops).delivered ++
        (runOps ⟨⟨some cap, []⟩, [], []⟩ ops).q.items =
      (runOps ⟨⟨some cap, []⟩, [], []⟩ ops).accepted :=
    fun cap ops => runOps_conservation ops ⟨⟨some cap, []⟩, [], []⟩ rfl
  refine ⟨h1, fun cap ops hnil => ?_⟩
  have h2 := h1 cap ops
  rw [hnil, List.append_nil] at h2
  exact h2

/-- C8 witness: a concrete interleaving of two producers and one consumer
on a queue of capacity 2 delivers exactly the accepted items. -/
theorem queue_exactly_once_witness :
    (runOps ⟨⟨some 2, []⟩, [], []⟩
        [QueueOp.put 1, QueueOp.put 2, QueueOp.get, QueueOp.put 3,
         QueueOp.get, QueueOp.get]).delivered =
      (runOps (⟨⟨some 2, []⟩, [], []⟩ : TraceState Nat)
        [QueueOp.put 1, QueueOp.put 2, QueueOp.get, QueueOp.put 3,
         QueueOp.get, QueueOp.get]).accepted :=
  queue_exactly_once.2 2
    [QueueOp.put 1, QueueOp.put 2, QueueOp.get, QueueOp.put 3,
     QueueOp.get, QueueOp.get] rfl

/-- C10: for every path of the form `bucket ++ "/" ++ key` where `bucket`
contains no `/` character (Unicode characters included), `find_bucket_key`
returns the pair `(bucket, key)`: the S3 path is split at the first `/`
into bucket and key. -/
theorem find_bucket_key_splits_at_first_slash (bucket key : List Char)
    (hb : ∀ c ∈ bucket, c ≠ '/') :
    find_bucket_key (bucket ++ '/' :: key) = (bucket, key) := by
  induction bucket with
  | nil => simp [find_bucket_key]
  | cons c b ih =>
    have hc : c ≠ '/' := hb c (List.mem_cons_self c b)
    have hrest : ∀ x ∈ b, x ≠ '/' := fun x hx => hb x (List.mem_cons_of_mem c hx)
    simp only [List.cons_append, find_bucket_key, if_neg hc, List.append_eq, ih hrest]

/-- C10 witness: the repository test `FindBucketKey.test_unicode` instance,
splitting the path `"ሴ/噸"`. -/
theorem find_bucket_key_splits_witness :
    find_bucket_key ['ሴ', '/', '噸'] = (['ሴ'], ['噸']) :=
  find_bucket_key_splits_at_first_slash ['ሴ'] ['噸'] (by decide)
